import Mathlib

/-!
Shallow embedding of the terraform-provider-azurerm-index scanner
(package `pkg` of github.com/lonegunmanb/terraform-provider-azurerm-index).

The Go sources parse Go files with `go/ast` and recognize a fixed set of
declaration shapes.  Here the relevant fragment of the Go AST is embedded as
inductive types (`Expr`, `Stmt`, `FuncDecl`), Go maps are embedded as
association lists with in-place insertion (`GoMap`), and every recognizer,
resolver and pipeline function is translated from the corresponding Go
function, keeping the source names.  Function bodies are modelled as flat
statement lists: the registration shapes recognized by the source occur at
the top level of a body, and `ast.Inspect` visits exactly these statements
for such bodies.
-/

namespace AzurermIndex

/-- Embedding of Go `strings.Trim(s, quote)`: removes all leading and
trailing double-quote characters. -/
def trimQuotes (s : String) : String :=
  String.mk (((s.toList.dropWhile (fun c => c = '"')).reverse.dropWhile (fun c => c = '"')).reverse)

/-- Embedding of a Go `map[string]α` as an association list with unique keys
(maintained by `goInsert`). -/
abbrev GoMap (α : Type) : Type := List (String × α)

/-- Go map assignment `m[k] = v`: replaces the binding of `k` in place, or
appends a new binding. -/
def goInsert {α : Type} : GoMap α → String → α → GoMap α
  | [], k, v => [(k, v)]
  | (k', v') :: m, k, v => if k' = k then (k', v) :: m else (k', v') :: goInsert m k v

/-- Go map read `m[k]` with presence flag: the binding of `k`, if any. -/
def goLookup {α : Type} : GoMap α → String → Option α
  | [], _ => none
  | (k', v') :: m, k => if k' = k then some v' else goLookup m k

/-- Embedding of `mergeMap` (parser.go): the content of a fresh Go map filled
with `m1`'s entries and then `m2`'s entries, so `m2` overrides `m1`. -/
def mergeMap {α : Type} (m1 m2 : GoMap α) : GoMap α :=
  m2.foldl (fun m kv => goInsert m kv.1 kv.2) m1

/-- Embedding of the fragment of `go/ast` expressions used by the
recognizers.  `basicLit` keeps the literal token text (with quotes) and a
flag for `token.STRING`; `unary` keeps a flag for `token.AND`. -/
inductive Expr : Type where
  | ident (name : String)
  | basicLit (isString : Bool) (tok : String)
  | call (fn : Expr) (args : List Expr)
  | selector (x : Expr) (sel : String)
  | composite (ty : Option Expr) (elts : List Expr)
  | keyValue (key : Expr) (value : Expr)
  | unary (isAnd : Bool) (x : Expr)
  | star (x : Expr)
  | otherExpr

/-- Embedding of the fragment of `go/ast` statements used by the
recognizers. -/
inductive Stmt : Type where
  | ret (results : List Expr)
  | assign (lhs : List Expr) (rhs : List Expr)
  | otherStmt

/-- Embedding of `ast.FuncDecl`: name, optional receiver type (the `Type` of
the first receiver field, when a receiver list is present), the declared
result types, and the body as a flat statement list. -/
structure FuncDecl : Type where
  name : String
  recv : Option Expr
  results : List Expr
  body : List Stmt

/-- Embedding of one parsed file: its top-level function declarations (the
only declarations the recognizers inspect). -/
abbrev GoFile : Type := List FuncDecl

/-- Embedding of gophon `FuncInfo`: a declared-function record with its
optional `FuncDecl`. -/
structure FuncInfo : Type where
  name : String
  decl : Option FuncDecl

/-- Embedding of gophon `PackageInfo`: package path, the per-file syntax
trees (`none` models a `FileInfo` with nil `File`), and the declared-function
list. -/
structure PackageInfo : Type where
  packagePath : String
  files : List (Option GoFile)
  functions : List FuncInfo

/-- Key extraction of `extractFromMapLiteral`: the unquoted text of a
string-literal key, or the empty string for any other shape. -/
def mapKeyOf : Expr → String
  | Expr.basicLit true tok => trimQuotes tok
  | _ => ""

/-- Value extraction of `extractFromMapLiteral`: the callee name of a call
whose callee is a plain identifier, or the empty string for any other
shape. -/
def mapValOf : Expr → String
  | Expr.call (Expr.ident f) _ => f
  | _ => ""

/-- Loop body of `extractFromMapLiteral` (parser.go) for one element of a
map composite literal: a pair is recorded when its key is a quoted string
literal and its value a call whose callee is a plain identifier. -/
def mapLiteralStep (mappings : GoMap String) (elt : Expr) : GoMap String :=
  match elt with
  | Expr.keyValue key value =>
    let k := mapKeyOf key
    let v := mapValOf value
    if k ≠ "" ∧ v ≠ "" then goInsert mappings k v else mappings
  | _ => mappings

/-- Embedding of `extractFromMapLiteral` (parser.go): reads the element list
of a map composite literal. -/
def extractFromMapLiteral (elts : List Expr) : GoMap String :=
  elts.foldl mapLiteralStep []

/-- Embedding of the inner loop of `extractMappingsFromMethod` that walks an
assignment's left-hand sides looking for the returned variable `x`: the Go
visitor aborts the remaining left-hand sides at the first non-matching
identifier and at an index past the right-hand-side list, and merges the
right-hand composite literal at each matching position. -/
def scanAssignLhs (x : String) (rhs : List Expr) : List Expr → Nat → GoMap String → GoMap String
  | [], _, m => m
  | l :: ls, i, m =>
    match l with
    | Expr.ident n =>
      if n = x then
        match rhs.get? i with
        | some (Expr.composite _ elts) => scanAssignLhs x rhs ls (i + 1) (mergeMap m (extractFromMapLiteral elts))
        | some _ => scanAssignLhs x rhs ls (i + 1) m
        | none => m
      else m
    | _ => m

/-- Search of a function body for assignments to the returned variable `x`
(the nested `ast.Inspect` of `extractMappingsFromMethod`). -/
def varMappingsInBody (x : String) (body : List Stmt) (m : GoMap String) : GoMap String :=
  body.foldl
    (fun m stmt =>
      match stmt with
      | Stmt.assign lhs rhs => scanAssignLhs x rhs lhs 0 m
      | _ => m)
    m

/-- Processing of one return statement's results inside
`extractMappingsFromMethod`: a composite literal is merged directly, a bare
identifier triggers the assignment search over the same body. -/
def retMappings (body : List Stmt) (results : List Expr) (m : GoMap String) : GoMap String :=
  results.foldl
    (fun m r =>
      match r with
      | Expr.composite _ elts => mergeMap m (extractFromMapLiteral elts)
      | Expr.ident x => varMappingsInBody x body m
      | _ => m)
    m

/-- Embedding of `extractMappingsFromMethod` (parser.go): over every function
declaration named `methodName`, merges the mappings extracted from every
return statement of its body. -/
def extractMappingsFromMethod (file : GoFile) (methodName : String) : GoMap String :=
  file.foldl
    (fun mappings fn =>
      if fn.name = methodName then
        fn.body.foldl
          (fun m stmt =>
            match stmt with
            | Stmt.ret results => retMappings fn.body results m
            | _ => m)
          mappings
      else mappings)
    []

/-- Embedding of `extractFromSliceLiteral` (parser.go): element composite
literals whose type is a plain identifier contribute that identifier. -/
def extractFromSliceLiteral (elts : List Expr) : List String :=
  elts.foldl
    (fun types elt =>
      match elt with
      | Expr.composite (some (Expr.ident n)) _ => types ++ [n]
      | _ => types)
    []

/-- Embedding of `extractFromFunctionSliceLiteral` (parser.go): bare
identifier elements contribute their names. -/
def extractFromFunctionSliceLiteral (elts : List Expr) : List String :=
  elts.foldl
    (fun functions elt =>
      match elt with
      | Expr.ident n => functions ++ [n]
      | _ => functions)
    []

/-- Assignment-search loop of `extractStructTypesFromMethod`, with the same
abort behaviour as `scanAssignLhs`. -/
def scanAssignLhsTypes (x : String) (rhs : List Expr) : List Expr → Nat → List String → List String
  | [], _, acc => acc
  | l :: ls, i, acc =>
    match l with
    | Expr.ident n =>
      if n = x then
        match rhs.get? i with
        | some (Expr.composite _ elts) => scanAssignLhsTypes x rhs ls (i + 1) (acc ++ extractFromSliceLiteral elts)
        | some _ => scanAssignLhsTypes x rhs ls (i + 1) acc
        | none => acc
      else acc
    | _ => acc

/-- Search of a function body for assignments to the returned variable, for
the struct-list recognizer. -/
def varTypesInBody (x : String) (body : List Stmt) (acc : List String) : List String :=
  body.foldl
    (fun acc stmt =>
      match stmt with
      | Stmt.assign lhs rhs => scanAssignLhsTypes x rhs lhs 0 acc
      | _ => acc)
    acc

/-- Processing of one return statement's results inside
`extractStructTypesFromMethod`. -/
def retTypes (body : List Stmt) (results : List Expr) (acc : List String) : List String :=
  results.foldl
    (fun acc r =>
      match r with
      | Expr.composite _ elts => acc ++ extractFromSliceLiteral elts
      | Expr.ident x => varTypesInBody x body acc
      | _ => acc)
    acc

/-- Embedding of `extractStructTypesFromMethod` (parser.go). -/
def extractStructTypesFromMethod (file : GoFile) (methodName : String) : List String :=
  file.foldl
    (fun types fn =>
      if fn.name = methodName then
        fn.body.foldl
          (fun acc stmt =>
            match stmt with
            | Stmt.ret results => retTypes fn.body results acc
            | _ => acc)
          types
      else types)
    []

/-- Assignment-search loop of `extractFunctionNamesFromMethod`, with the same
abort behaviour as `scanAssignLhs`. -/
def scanAssignLhsFuncs (x : String) (rhs : List Expr) : List Expr → Nat → List String → List String
  | [], _, acc => acc
  | l :: ls, i, acc =>
    match l with
    | Expr.ident n =>
      if n = x then
        match rhs.get? i with
        | some (Expr.composite _ elts) => scanAssignLhsFuncs x rhs ls (i + 1) (acc ++ extractFromFunctionSliceLiteral elts)
        | some _ => scanAssignLhsFuncs x rhs ls (i + 1) acc
        | none => acc
      else acc
    | _ => acc

/-- Search of a function body for assignments to the returned variable, for
the function-list recognizer. -/
def varFuncsInBody (x : String) (body : List Stmt) (acc : List String) : List String :=
  body.foldl
    (fun acc stmt =>
      match stmt with
      | Stmt.assign lhs rhs => scanAssignLhsFuncs x rhs lhs 0 acc
      | _ => acc)
    acc

/-- Processing of one return statement's results inside
`extractFunctionNamesFromMethod`. -/
def retFuncs (body : List Stmt) (results : List Expr) (acc : List String) : List String :=
  results.foldl
    (fun acc r =>
      match r with
      | Expr.composite _ elts => acc ++ extractFromFunctionSliceLiteral elts
      | Expr.ident x => varFuncsInBody x body acc
      | _ => acc)
    acc

/-- Embedding of `extractFunctionNamesFromMethod` (parser.go). -/
def extractFunctionNamesFromMethod (file : GoFile) (methodName : String) : List String :=
  file.foldl
    (fun functions fn =>
      if fn.name = methodName then
        fn.body.foldl
          (fun acc stmt =>
            match stmt with
            | Stmt.ret results => retFuncs fn.body results acc
            | _ => acc)
          functions
      else functions)
    []

/-- Embedding of `extractSupportedResourcesMappings`. -/
def extractSupportedResourcesMappings (file : GoFile) : GoMap String :=
  extractMappingsFromMethod file "SupportedResources"

/-- Embedding of `extractSupportedDataSourcesMappings`. -/
def extractSupportedDataSourcesMappings (file : GoFile) : GoMap String :=
  extractMappingsFromMethod file "SupportedDataSources"

/-- Embedding of `extractResourcesStructTypes`. -/
def extractResourcesStructTypes (file : GoFile) : List String :=
  extractStructTypesFromMethod file "Resources"

/-- Embedding of `extractDataSourcesStructTypes`. -/
def extractDataSourcesStructTypes (file : GoFile) : List String :=
  extractStructTypesFromMethod file "DataSources"

/-- Embedding of `extractEphemeralResourcesFunctions`. -/
def extractEphemeralResourcesFunctions (file : GoFile) : List String :=
  extractFunctionNamesFromMethod file "EphemeralResources"

/-- Embedding of `LegacyResourceCRUDFunctions`
(legacy_resource_crud_functions.go). -/
structure LegacyResourceCRUDFunctions : Type where
  createMethod : String := ""
  readMethod : String := ""
  updateMethod : String := ""
  deleteMethod : String := ""
deriving DecidableEq

/-- Embedding of `extractFunctionReference` (parser files): a bare identifier
yields its name, a qualified identifier `pkg.Name` yields only the trailing
`Name`, anything else yields the empty string. -/
def extractFunctionReference : Expr → String
  | Expr.ident n => n
  | Expr.selector _ sel => sel
  | _ => ""

/-- Accepted key spellings for the Create operation
(legacy_resource_crud_functions.go switch cases). -/
def createAliases : List String := ["Create", "CreateContext", "CreateFunc", "CreateWithoutTimeout"]

/-- Accepted key spellings for the Read operation. -/
def readAliases : List String := ["Read", "ReadContext", "ReadFunc", "ReadWithoutTimeout"]

/-- Accepted key spellings for the Update operation. -/
def updateAliases : List String := ["Update", "UpdateContext", "UpdateFunc", "UpdateWithoutTimeout"]

/-- Accepted key spellings for the Delete operation. -/
def deleteAliases : List String := ["Delete", "DeleteContext", "DeleteFunc", "DeleteWithoutTimeout"]

/-- Field-name extraction of `extractFromResourceLiteral`: the name of a
plain identifier key, or the empty string for any other shape. -/
def crudKeyOf : Expr → String
  | Expr.ident n => n
  | _ => ""

/-- Loop body of `extractFromResourceLiteral`
(legacy_resource_crud_functions.go) for one element of a
`pluginsdk.Resource` composite literal: assigns the callable name of a
recognized key/value pair to the matching CRUD field; the Go switch over the
four spellings per operation is membership in the alias list. -/
def resourceLiteralStep (methods : LegacyResourceCRUDFunctions) (elt : Expr) : LegacyResourceCRUDFunctions :=
  match elt with
  | Expr.keyValue key value =>
    let fieldName := crudKeyOf key
    let funcName := extractFunctionReference value
    if funcName = "" then methods
    else if fieldName ∈ createAliases then { methods with createMethod := funcName }
    else if fieldName ∈ readAliases then { methods with readMethod := funcName }
    else if fieldName ∈ updateAliases then { methods with updateMethod := funcName }
    else if fieldName ∈ deleteAliases then { methods with deleteMethod := funcName }
    else methods
  | _ => methods

/-- Embedding of `extractFromResourceLiteral` as the fold of
`resourceLiteralStep` over the literal's element list. -/
def extractFromResourceLiteral (elts : List Expr) (methods : LegacyResourceCRUDFunctions) : LegacyResourceCRUDFunctions :=
  elts.foldl resourceLiteralStep methods

/-- Return-statement pass of `extractCRUDFromFunction`: the Go visitor walks
a return statement's results and aborts the remaining results at the first
expression that is not a `&` unary expression; each `&CompositeLit` result
feeds `extractFromResourceLiteral`. -/
def crudRetScan (methods : LegacyResourceCRUDFunctions) : List Expr → LegacyResourceCRUDFunctions
  | [] => methods
  | Expr.unary true (Expr.composite _ elts) :: rest => crudRetScan (extractFromResourceLiteral elts methods) rest
  | Expr.unary true _ :: rest => crudRetScan methods rest
  | _ => methods

/-- Assignment pass of `extractCRUDFromFunction`, with the same abort
behaviour over an assignment's right-hand sides. -/
def crudAssignScan (methods : LegacyResourceCRUDFunctions) : List Expr → LegacyResourceCRUDFunctions
  | [] => methods
  | Expr.unary true (Expr.composite _ elts) :: rest => crudAssignScan (extractFromResourceLiteral elts methods) rest
  | Expr.unary true _ :: rest => crudAssignScan methods rest
  | _ => methods

/-- Embedding of `extractCRUDFromFunction`
(legacy_resource_crud_functions.go / parser files): first scans every return
statement for `return &Literal` shapes, then scans every assignment for
`x := &Literal` shapes, later matches overwriting earlier ones. -/
def extractCRUDFromFunction (fn : FuncDecl) : LegacyResourceCRUDFunctions :=
  let methods := fn.body.foldl
    (fun m stmt =>
      match stmt with
      | Stmt.ret results => crudRetScan m results
      | _ => m)
    {}
  fn.body.foldl
    (fun m stmt =>
      match stmt with
      | Stmt.assign _ rhs => crudAssignScan m rhs
      | _ => m)
    methods

/-- Loop of `extractCRUDFromPackage` over the declared-function list: the
first function whose name equals the registration-table value and which
carries a declaration is selected; its declared return type is not
inspected. -/
def findRegistrationFunc (registrationMethod : String) : List FuncInfo → Option FuncDecl
  | [] => none
  | f :: fs =>
    match f.decl with
    | some d => if f.name = registrationMethod then some d else findRegistrationFunc registrationMethod fs
    | none => findRegistrationFunc registrationMethod fs

/-- Embedding of `extractCRUDFromPackage`
(legacy_resource_crud_functions.go); `none` input models a nil
`PackageInfo`. -/
def extractCRUDFromPackage (registrationMethod : String) : Option PackageInfo → Option LegacyResourceCRUDFunctions
  | none => none
  | some pkg => (findRegistrationFunc registrationMethod pkg.functions).map extractCRUDFromFunction

/-- Check of `findResourceFunction` on one declaration's result list: some
declared result type is literally `*pluginsdk.Resource` (a star over a
two-part selector), matched syntactically. -/
def returnsPluginsdkResource (results : List Expr) : Bool :=
  results.any
    (fun r =>
      match r with
      | Expr.star (Expr.selector (Expr.ident p) s) => p = "pluginsdk" && s = "Resource"
      | _ => false)

/-- Embedding of `findResourceFunction` (parser files): the first function
declaration in the file returning `*pluginsdk.Resource`, regardless of its
name. -/
def findResourceFunction : GoFile → Option FuncDecl
  | [] => none
  | fn :: rest => if returnsPluginsdkResource fn.results then some fn else findResourceFunction rest

/-- Embedding of `LegacyDataSourceMethods`. -/
structure LegacyDataSourceMethods : Type where
  readMethod : String := ""
deriving DecidableEq

/-- Accepted key spellings for the legacy data-source Read operation. -/
def dsReadAliases : List String := ["Read", "ReadContext", "ReadFunc", "ReadWithoutTimeout"]

/-- Embedding of `extractFromDataSourceLiteral`: like
`extractFromResourceLiteral` but records only the Read operation. -/
def extractFromDataSourceLiteral (elts : List Expr) (methods : LegacyDataSourceMethods) : LegacyDataSourceMethods :=
  elts.foldl
    (fun methods elt =>
      match elt with
      | Expr.keyValue key value =>
        let fieldName := match key with
          | Expr.ident n => n
          | _ => ""
        let funcName := extractFunctionReference value
        if funcName = "" then methods
        else if fieldName ∈ dsReadAliases then { methods with readMethod := funcName }
        else methods
      | _ => methods)
    methods

/-- Return-statement pass of `extractDataSourceMethodsFromFunction`. -/
def dsRetScan (methods : LegacyDataSourceMethods) : List Expr → LegacyDataSourceMethods
  | [] => methods
  | Expr.unary true (Expr.composite _ elts) :: rest => dsRetScan (extractFromDataSourceLiteral elts methods) rest
  | Expr.unary true _ :: rest => dsRetScan methods rest
  | _ => methods

/-- Assignment pass of `extractDataSourceMethodsFromFunction`. -/
def dsAssignScan (methods : LegacyDataSourceMethods) : List Expr → LegacyDataSourceMethods
  | [] => methods
  | Expr.unary true (Expr.composite _ elts) :: rest => dsAssignScan (extractFromDataSourceLiteral elts methods) rest
  | Expr.unary true _ :: rest => dsAssignScan methods rest
  | _ => methods

/-- Embedding of `extractDataSourceMethodsFromFunction`. -/
def extractDataSourceMethodsFromFunction (fn : FuncDecl) : LegacyDataSourceMethods :=
  let methods := fn.body.foldl
    (fun m stmt =>
      match stmt with
      | Stmt.ret results => dsRetScan m results
      | _ => m)
    {}
  fn.body.foldl
    (fun m stmt =>
      match stmt with
      | Stmt.assign _ rhs => dsAssignScan m rhs
      | _ => m)
    methods

/-- Loop of `extractDataSourceMethodsFromPackage` over the declared-function
list (same selection rule as `findRegistrationFunc`). -/
def findDataSourceRegistrationFunc (registrationMethod : String) : List FuncInfo → Option FuncDecl
  | [] => none
  | f :: fs =>
    match f.decl with
    | some d => if f.name = registrationMethod then some d else findDataSourceRegistrationFunc registrationMethod fs
    | none => findDataSourceRegistrationFunc registrationMethod fs

/-- Embedding of `extractDataSourceMethodsFromPackage`. -/
def extractDataSourceMethodsFromPackage (registrationMethod : String) : Option PackageInfo → Option LegacyDataSourceMethods
  | none => none
  | some pkg => (findDataSourceRegistrationFunc registrationMethod pkg.functions).map extractDataSourceMethodsFromFunction

/-- Receiver-type name computation of the lifecycle-method finders: a
pointer receiver `*StructName` and a value receiver `StructName` both yield
`StructName`; any other shape yields the empty string. -/
def receiverTypeName : Expr → String
  | Expr.star (Expr.ident n) => n
  | Expr.ident n => n
  | _ => ""

/-- Per-file search of `extractTerraformTypeFromResourceTypeMethod`: the
first declaration named `ResourceType` whose receiver's underlying type
identifier equals `structName`. -/
def resourceTypeMethodInFile (structName : String) : GoFile → Option FuncDecl
  | [] => none
  | fn :: rest =>
    if fn.name = "ResourceType" then
      match fn.recv with
      | some recvTy =>
        if receiverTypeName recvTy = structName then some fn
        else resourceTypeMethodInFile structName rest
      | none => resourceTypeMethodInFile structName rest
    else resourceTypeMethodInFile structName rest

/-- Body scan of `extractStringReturnValue`: the first return statement whose
first result is a string literal yields that literal, unquoted. -/
def stringReturnInBody : List Stmt → String
  | [] => ""
  | Stmt.ret (Expr.basicLit true tok :: _) :: _ => trimQuotes tok
  | _ :: rest => stringReturnInBody rest

/-- Embedding of `extractStringReturnValue` (parser files). -/
def extractStringReturnValue (fn : FuncDecl) : String :=
  stringReturnInBody fn.body

/-- Result of the `ResourceType` search within one file: the resolved string
of the first matching declaration, or the empty string. -/
def resourceTypeFromFile (structName : String) (f : GoFile) : String :=
  match resourceTypeMethodInFile structName f with
  | some fn => extractStringReturnValue fn
  | none => ""

/-- Embedding of `extractTerraformTypeFromResourceTypeMethod` (parser
files): files are searched in order; a file whose search yields a non-empty
string decides the result. -/
def extractTerraformTypeFromResourceTypeMethod : List (Option GoFile) → String → String
  | [], _ => ""
  | none :: rest, structName => extractTerraformTypeFromResourceTypeMethod rest structName
  | some f :: rest, structName =>
    let result := resourceTypeFromFile structName f
    if result = "" then extractTerraformTypeFromResourceTypeMethod rest structName else result

/-- Per-file search of `extractTerraformTypeFromMetadataMethod`: the first
declaration named `Metadata` whose receiver matches `structName`. -/
def metadataMethodInFile (structName : String) : GoFile → Option FuncDecl
  | [] => none
  | fn :: rest =>
    if fn.name = "Metadata" then
      match fn.recv with
      | some recvTy =>
        if receiverTypeName recvTy = structName then some fn
        else metadataMethodInFile structName rest
      | none => metadataMethodInFile structName rest
    else metadataMethodInFile structName rest

/-- Body scan of `extractTypeNameFromMetadataMethod`: the first assignment
whose first left-hand side is a field access ending in `TypeName` and whose
first right-hand side is a string literal yields that literal, unquoted. -/
def typeNameAssignInBody : List Stmt → String
  | [] => ""
  | Stmt.assign (Expr.selector _ sel :: _) (Expr.basicLit true tok :: _) :: rest =>
    if sel = "TypeName" then trimQuotes tok else typeNameAssignInBody rest
  | _ :: rest => typeNameAssignInBody rest

/-- Embedding of `extractTypeNameFromMetadataMethod` (parser files). -/
def extractTypeNameFromMetadataMethod (fn : FuncDecl) : String :=
  typeNameAssignInBody fn.body

/-- Result of the `Metadata` search within one file. -/
def metadataTypeFromFile (structName : String) (f : GoFile) : String :=
  match metadataMethodInFile structName f with
  | some fn => extractTypeNameFromMetadataMethod fn
  | none => ""

/-- Embedding of `extractTerraformTypeFromMetadataMethod` (parser files). -/
def extractTerraformTypeFromMetadataMethod : List (Option GoFile) → String → String
  | [], _ => ""
  | none :: rest, structName => extractTerraformTypeFromMetadataMethod rest structName
  | some f :: rest, structName =>
    let result := metadataTypeFromFile structName f
    if result = "" then extractTerraformTypeFromMetadataMethod rest structName else result

/-- Embedding of `extractResourceTerraformTypes` (parser files): resolves
every modern-resource struct name through its `ResourceType` method, keeping
only non-empty resolutions. -/
def extractResourceTerraformTypes (pkg : PackageInfo) (resourceStructs : List String) : GoMap String :=
  resourceStructs.foldl
    (fun m s =>
      let t := extractTerraformTypeFromResourceTypeMethod pkg.files s
      if t = "" then m else goInsert m s t)
    []

/-- Embedding of `extractDataSourceTerraformTypes` (parser files): data
sources are resolved through the same `ResourceType` method search. -/
def extractDataSourceTerraformTypes (pkg : PackageInfo) (dataSourceStructs : List String) : GoMap String :=
  dataSourceStructs.foldl
    (fun m s =>
      let t := extractTerraformTypeFromResourceTypeMethod pkg.files s
      if t = "" then m else goInsert m s t)
    []

/-- Embedding of `extractEphemeralTerraformTypes` (parser files): ephemeral
resources are resolved through the `Metadata` method search. -/
def extractEphemeralTerraformTypes (pkg : PackageInfo) (ephemeralStructs : List String) : GoMap String :=
  ephemeralStructs.foldl
    (fun m s =>
      let t := extractTerraformTypeFromMetadataMethod pkg.files s
      if t = "" then m else goInsert m s t)
    []

/-- Embedding of `ServiceRegistration` (terraform_provider_index.go). -/
structure ServiceRegistration : Type where
  serviceName : String
  packagePath : String
  supportedResources : GoMap String
  supportedDataSources : GoMap String
  resources : List String
  dataSources : List String
  ephemeralResources : List String
  resourceCRUDMethods : GoMap LegacyResourceCRUDFunctions
  dataSourceMethods : GoMap LegacyDataSourceMethods
  resourceTerraformTypes : GoMap String
  dataSourceTerraformTypes : GoMap String
  ephemeralTerraformTypes : GoMap String

/-- Embedding of `newServiceRegistration`: a fresh registration with every
collection empty. -/
def newServiceRegistration (pkg : PackageInfo) (entryName : String) : ServiceRegistration :=
  { serviceName := entryName
    packagePath := pkg.packagePath
    supportedResources := []
    supportedDataSources := []
    resources := []
    dataSources := []
    ephemeralResources := []
    resourceCRUDMethods := []
    dataSourceMethods := []
    resourceTerraformTypes := []
    dataSourceTerraformTypes := []
    ephemeralTerraformTypes := [] }

/-- Per-file merge of the scan worker: runs the five recognizers over one
parsed file and merges the findings into the registration (a nil file is
skipped). -/
def mergeFileFindings (reg : ServiceRegistration) (file? : Option GoFile) : ServiceRegistration :=
  match file? with
  | none => reg
  | some file =>
    { reg with
      supportedResources := mergeMap reg.supportedResources (extractSupportedResourcesMappings file)
      supportedDataSources := mergeMap reg.supportedDataSources (extractSupportedDataSourcesMappings file)
      resources := reg.resources ++ extractResourcesStructTypes file
      dataSources := reg.dataSources ++ extractDataSourcesStructTypes file
      ephemeralResources := reg.ephemeralResources ++ extractEphemeralResourcesFunctions file }

/-- Per-package body of the scan worker (terraform_provider_index.go lines
processing one package): runs the five recognizers over every parsed file,
merges the findings, then attaches type resolutions and legacy method
resolutions. -/
def scanService (pkg : PackageInfo) (entryName : String) : ServiceRegistration :=
  let reg := pkg.files.foldl mergeFileFindings (newServiceRegistration pkg entryName)
  let reg :=
    { reg with
      resourceTerraformTypes := extractResourceTerraformTypes pkg reg.resources
      dataSourceTerraformTypes := extractDataSourceTerraformTypes pkg reg.dataSources
      ephemeralTerraformTypes := extractEphemeralTerraformTypes pkg reg.ephemeralResources }
  let reg :=
    { reg with
      resourceCRUDMethods := reg.supportedResources.foldl
        (fun m (kv : String × String) =>
          match extractCRUDFromPackage kv.2 (some pkg) with
          | some crud => goInsert m kv.1 crud
          | none => m)
        reg.resourceCRUDMethods }
  { reg with
    dataSourceMethods := reg.supportedDataSources.foldl
      (fun m (kv : String × String) =>
        match extractDataSourceMethodsFromPackage kv.2 (some pkg) with
        | some methods => goInsert m kv.1 methods
        | none => m)
      reg.dataSourceMethods }

/-- Inclusion test of the scan worker: the service is reported only when at
least one of the five recognizer collections is non-empty. -/
def hasAnyRegistration (reg : ServiceRegistration) : Bool :=
  !reg.supportedResources.isEmpty || !reg.supportedDataSources.isEmpty ||
  !reg.resources.isEmpty || !reg.dataSources.isEmpty || !reg.ephemeralResources.isEmpty

/-- One directory entry handed to a scan worker; `none` models a directory
the syntax provider could not scan (gophon error or nil package). -/
structure ScanEntry : Type where
  name : String
  pkg : Option PackageInfo

/-- The whole worker body for one entry: skipped entries and packages with
no parsed files yield nothing; otherwise the package is scanned and reported
only when `hasAnyRegistration` holds. -/
def scanWorker (e : ScanEntry) : Option ServiceRegistration :=
  match e.pkg with
  | none => none
  | some pkg =>
    if pkg.files.isEmpty then none
    else
      let reg := scanService pkg e.name
      if hasAnyRegistration reg then some reg else none

/-- Embedding of `ProviderStatistics`. -/
structure ProviderStatistics : Type where
  serviceCount : Nat := 0
  totalDataSources : Nat := 0
  totalResources : Nat := 0
  legacyResources : Nat := 0
  modernResources : Nat := 0
  ephemeralResources : Nat := 0
deriving DecidableEq

/-- Per-service statistics update of the collection loop
(terraform_provider_index.go result collection). -/
def collectStep (stats : ProviderStatistics) (reg : ServiceRegistration) : ProviderStatistics :=
  { stats with
    serviceCount := stats.serviceCount + 1
    legacyResources := stats.legacyResources + reg.supportedResources.length
    totalDataSources := stats.totalDataSources + reg.supportedDataSources.length + reg.dataSources.length
    modernResources := stats.modernResources + reg.resources.length
    ephemeralResources := stats.ephemeralResources + reg.ephemeralResources.length }

/-- Embedding of `TerraformProviderIndex`. -/
structure TerraformProviderIndex : Type where
  version : String
  services : List ServiceRegistration
  statistics : ProviderStatistics

/-- Embedding of `ScanTerraformProviderServices`
(terraform_provider_index.go): every entry is processed by the worker body,
the collected registrations form the service list (the list order stands for
one arbitrary result-channel drain order), statistics are summed per
collected registration, and `TotalResources` is set at the end as the sum of
the three resource counters. -/
def ScanTerraformProviderServices (entries : List ScanEntry) (version : String) : TerraformProviderIndex :=
  let services := entries.filterMap scanWorker
  let stats := services.foldl collectStep {}
  let stats := { stats with totalResources := stats.legacyResources + stats.modernResources + stats.ephemeralResources }
  { version := version, services := services, statistics := stats }

/-- Embedding of `TerraformResource` (the emitted resource document,
terraform_ephemeral.go file section). -/
structure TerraformResource : Type where
  terraformType : String
  structType : String
  namespacePath : String
  registrationMethod : String
  sdkType : String
  schemaIndex : String
  createIndex : String
  readIndex : String
  updateIndex : String
  deleteIndex : String
  attributeIndex : String
deriving DecidableEq

/-- Embedding of `NewTerraformResourceInfo`: the legacy branch uses the
passed identifier and fills CRUD index references from
`resourceCRUDMethods`; the modern branch ignores the passed identifier and
re-reads `resourceTerraformTypes[structType]`, whose Go zero value on a miss
is the empty string. -/
def NewTerraformResourceInfo (terraformType structType registrationMethod sdkType : String) (serviceReg : ServiceRegistration) : TerraformResource :=
  if sdkType = "legacy_pluginsdk" then
    let base : TerraformResource :=
      { terraformType := terraformType
        structType := ""
        namespacePath := serviceReg.packagePath
        registrationMethod := registrationMethod
        sdkType := sdkType
        schemaIndex := "func." ++ registrationMethod ++ ".goindex"
        createIndex := ""
        readIndex := ""
        updateIndex := ""
        deleteIndex := ""
        attributeIndex := "func." ++ registrationMethod ++ ".goindex" }
    match goLookup serviceReg.resourceCRUDMethods terraformType with
    | some crud =>
      { base with
        createIndex := "func." ++ crud.createMethod ++ ".goindex"
        readIndex := "func." ++ crud.readMethod ++ ".goindex"
        updateIndex := "func." ++ crud.updateMethod ++ ".goindex"
        deleteIndex := "func." ++ crud.deleteMethod ++ ".goindex" }
    | none => base
  else
    { terraformType := (goLookup serviceReg.resourceTerraformTypes structType).getD ""
      structType := structType
      namespacePath := serviceReg.packagePath
      registrationMethod := ""
      sdkType := sdkType
      schemaIndex := "method." ++ structType ++ ".Arguments.goindex"
      createIndex := "method." ++ structType ++ ".Create.goindex"
      readIndex := "method." ++ structType ++ ".Read.goindex"
      updateIndex := "method." ++ structType ++ ".Update.goindex"
      deleteIndex := "method." ++ structType ++ ".Delete.goindex"
      attributeIndex := "method." ++ structType ++ ".Attributes.goindex" }

/-- Embedding of `TerraformDataSource` (terraform_data_source.go). -/
structure TerraformDataSource : Type where
  terraformType : String
  structType : String
  namespacePath : String
  registrationMethod : String
  sdkType : String
  schemaIndex : String
  readIndex : String
  attributeIndex : String
deriving DecidableEq

/-- Embedding of `NewTerraformDataSourceInfo`: the legacy branch reads the
resolved read method from `dataSourceMethods` (in Go a missing key would
dereference a nil pointer; the pipeline only emits keys it inserted, so the
lookup is modelled with an empty-method default); the modern branch ignores
the passed identifier and re-reads `dataSourceTerraformTypes[structType]`. -/
def NewTerraformDataSourceInfo (terraformType structType registrationMethod sdkType : String) (serviceReg : ServiceRegistration) : TerraformDataSource :=
  if sdkType = "legacy_pluginsdk" then
    { terraformType := terraformType
      structType := ""
      namespacePath := serviceReg.packagePath
      registrationMethod := registrationMethod
      sdkType := sdkType
      schemaIndex := "func." ++ registrationMethod ++ ".goindex"
      readIndex := "func." ++ ((goLookup serviceReg.dataSourceMethods terraformType).getD {}).readMethod ++ ".goindex"
      attributeIndex := "func." ++ registrationMethod ++ ".goindex" }
  else
    { terraformType := (goLookup serviceReg.dataSourceTerraformTypes structType).getD ""
      structType := structType
      namespacePath := serviceReg.packagePath
      registrationMethod := ""
      sdkType := sdkType
      schemaIndex := "method." ++ structType ++ ".Arguments.goindex"
      readIndex := "method." ++ structType ++ ".Read.goindex"
      attributeIndex := "method." ++ structType ++ ".Attributes.goindex" }

/-- Embedding of `TerraformEphemeral` (terraform_ephemeral.go). -/
structure TerraformEphemeral : Type where
  terraformType : String
  structType : String
  namespacePath : String
  registrationMethod : String
  sdkType : String
  schemaIndex : String
  openIndex : String
  renewIndex : String
  closeIndex : String
deriving DecidableEq

/-- Embedding of `NewTerraformEphemeralInfo` (terraform_ephemeral.go): the
document's identifier is read directly from
`ephemeralTerraformTypes[structType]`, whose Go zero value on a miss is the
empty string. -/
def NewTerraformEphemeralInfo (structType : String) (service : ServiceRegistration) : TerraformEphemeral :=
  { terraformType := (goLookup service.ephemeralTerraformTypes structType).getD ""
    structType := structType
    namespacePath := service.packagePath
    registrationMethod := "EphemeralResources"
    sdkType := "ephemeral"
    schemaIndex := "method." ++ structType ++ ".Schema.goindex"
    openIndex := "method." ++ structType ++ ".Open.goindex"
    renewIndex := "method." ++ structType ++ ".Renew.goindex"
    closeIndex := "method." ++ structType ++ ".Close.goindex" }

/-- Modern-resource write task of `WriteResourceFiles`: the file name uses
the resolved identifier with fallback to the struct name; the emitted
document is built by `NewTerraformResourceInfo`. -/
def modernResourceWriteTask (svc : ServiceRegistration) (structT : String) : String × TerraformResource :=
  let terraformType := (goLookup svc.resourceTerraformTypes structT).getD structT
  (terraformType ++ ".json", NewTerraformResourceInfo terraformType structT "" "modern_sdk" svc)

/-- Modern-data-source write task of `WriteDataSourceFiles`. -/
def modernDataSourceWriteTask (svc : ServiceRegistration) (structT : String) : String × TerraformDataSource :=
  let terraformType := (goLookup svc.dataSourceTerraformTypes structT).getD structT
  (terraformType ++ ".json", NewTerraformDataSourceInfo terraformType structT "" "modern_sdk" svc)

/-- Ephemeral write task of `WriteEphemeralFiles`. -/
def ephemeralWriteTask (svc : ServiceRegistration) (structT : String) : String × TerraformEphemeral :=
  let terraformType := (goLookup svc.ephemeralTerraformTypes structT).getD structT
  (terraformType ++ ".json", NewTerraformEphemeralInfo structT svc)

/-- Outcome of one emission callback in the operational model of
`processCallbacksParallel`: a successful write of a file, or a failure with
an error message. -/
inductive EmTask : Type where
  | ok (file : String)
  | fail (err : String)
deriving DecidableEq

/-- State of the operational model of `processCallbacksParallel`: the FIFO
task channel, the workers that returned after sending an error, the start
order of tasks, the files written so far, and the error channel contents in
send order. -/
structure EmState : Type where
  queue : List (Nat × EmTask)
  stopped : List Nat
  started : List Nat
  written : List String
  errLog : List String
deriving DecidableEq

/-- One scheduling step of the model: worker `w`, when it exists and has not
returned, receives the next task from the channel and runs it to completion;
a failing task appends its error to the error channel and makes the worker
return, so that worker receives no further task.  Any other choice of `w`
leaves the state unchanged. -/
def emStep (numWorkers : Nat) (s : EmState) (w : Nat) : EmState :=
  if w < numWorkers ∧ w ∉ s.stopped then
    match s.queue with
    | [] => s
    | (id, EmTask.ok f) :: rest =>
      { s with queue := rest, started := s.started ++ [id], written := s.written ++ [f] }
    | (id, EmTask.fail e) :: rest =>
      { s with queue := rest, started := s.started ++ [id], errLog := s.errLog ++ [e], stopped := w :: s.stopped }
  else s

/-- A run of the model under an explicit interleaving: each schedule entry
names the worker that takes the next step. -/
def emRun (numWorkers : Nat) (tasks : List (Nat × EmTask)) (schedule : List Nat) : EmState :=
  schedule.foldl (emStep numWorkers) { queue := tasks, stopped := [], started := [], written := [], errLog := [] }

/-- Value returned by `processCallbacksParallel`: the first error received
from the error channel, or success when the channel stays empty. -/
def processCallbacksParallelResult (s : EmState) : Option String :=
  s.errLog.head?

/-- Statement-side view of one map-literal element: the binding it
contributes for key `k`, when its key is the quoted string `k` and its value
a call with a plain identifier callee. -/
def recognizedBinding (k : String) : Expr → Option String
  | Expr.keyValue key value =>
    if mapKeyOf key = k ∧ mapValOf value ≠ "" then some (mapValOf value) else none
  | _ => none

/-- Statement-side view of a whole map literal: the implementation
identifier contributed for key `k` by the last-occurring recognized pair, if
any. -/
def lastBinding (k : String) : List Expr → Option String
  | [] => none
  | e :: rest =>
    match lastBinding k rest with
    | some v => some v
    | none => recognizedBinding k e

/-- Statement-side view of one configuration-literal element: the callable
name it contributes for an operation with key spellings `aliases`. -/
def crudBindingFor (aliases : List String) : Expr → Option String
  | Expr.keyValue key value =>
    if crudKeyOf key ∈ aliases ∧ extractFunctionReference value ≠ "" then
      some (extractFunctionReference value)
    else none
  | _ => none

/-- Statement-side view of a whole configuration literal: the callable name
contributed for an operation by the last-occurring recognized pair, if
any. -/
def lastCrudBinding (aliases : List String) : List Expr → Option String
  | [] => none
  | e :: rest =>
    match lastCrudBinding aliases rest with
    | some v => some v
    | none => crudBindingFor aliases e

/-- Concrete map-literal element list with a duplicated key, for the C5
witness: the source text would be
a literal holding x_a: makeA() and then x_a: makeA2(). -/
def c5elts : List Expr :=
  [Expr.keyValue (Expr.basicLit true "\"x_a\"") (Expr.call (Expr.ident "makeA") []),
   Expr.keyValue (Expr.basicLit true "\"x_a\"") (Expr.call (Expr.ident "makeA2") [])]

/-- Concrete service registration with an unresolved modern resource, for
C2: the modern list contains FooResource but no identifier resolution
exists for it. -/
def svcC2 : ServiceRegistration :=
  { serviceName := "svc"
    packagePath := "internal/services/svc"
    supportedResources := []
    supportedDataSources := []
    resources := ["FooResource"]
    dataSources := []
    ephemeralResources := []
    resourceCRUDMethods := []
    dataSourceMethods := []
    resourceTerraformTypes := []
    dataSourceTerraformTypes := []
    ephemeralTerraformTypes := [] }

/-- Concrete registration function for C3 whose declared result type is
`*schema.Resource`, not `*pluginsdk.Resource`, and whose body returns a
configuration literal with a Read entry. -/
def c3fn : FuncDecl :=
  { name := "resourceFoo"
    recv := none
    results := [Expr.star (Expr.selector (Expr.ident "schema") "Resource")]
    body := [Stmt.ret [Expr.unary true
      (Expr.composite (some (Expr.selector (Expr.ident "schema") "Resource"))
        [Expr.keyValue (Expr.ident "Read") (Expr.ident "readFn")])]] }

/-- Concrete package for C3 declaring only `c3fn`. -/
def c3pkg : PackageInfo :=
  { packagePath := "internal/services/foo"
    files := [some [c3fn]]
    functions := [{ name := "resourceFoo", decl := some c3fn }] }

/-- Concrete emission task list for C4: the first task fails, the two
remaining tasks would each write a file. -/
def c4tasks : List (Nat × EmTask) :=
  [(0, EmTask.fail "e0"), (1, EmTask.ok "f1"), (2, EmTask.ok "f2")]

/-- Concrete package for the C9 witness: one parsed file containing a single
helper function that none of the five recognizers matches. -/
def c9pkg : PackageInfo :=
  { packagePath := "internal/services/empty"
    files := [some [{ name := "Helper", recv := none, results := [], body := [Stmt.ret []] }]]
    functions := [] }

/-- Lookup after a Go map assignment: the assigned key reads back the new
value, every other key is unaffected. -/
theorem goLookup_goInsert {α : Type} (m : GoMap α) (k : String) (v : α) (k' : String) :
    goLookup (goInsert m k v) k' = if k = k' then some v else goLookup m k' := by
  induction m with
  | nil => simp [goInsert, goLookup]
  | cons kv m ih =>
    obtain ⟨a, b⟩ := kv
    by_cases hak : a = k
    · subst hak
      by_cases hkk : a = k' <;> simp [goInsert, goLookup, hkk]
    · by_cases hak' : a = k'
      · subst hak'
        simp [goInsert, goLookup, hak, Ne.symm hak]
      · simp [goInsert, goLookup, hak, hak', ih]

/-- Claim C1: for every scanned services directory, the index returned by
`ScanTerraformProviderServices` satisfies
TotalResources = LegacyResources + ModernResources + EphemeralResources. -/
theorem scan_totalResources_is_sum (entries : List ScanEntry) (version : String) :
    (ScanTerraformProviderServices entries version).statistics.totalResources =
      (ScanTerraformProviderServices entries version).statistics.legacyResources +
      (ScanTerraformProviderServices entries version).statistics.modernResources +
      (ScanTerraformProviderServices entries version).statistics.ephemeralResources := rfl

/-- Counterexample for claim C2: for the modern resource FooResource with no
resolvable identifier, the emitted file name falls back to the raw object
name, but the terraform_type recorded inside the emitted document is the
empty string, not the raw object name as the claim states: the constructor
re-reads the unresolved mapping instead of using the caller's fallback. -/
theorem modern_fallback_document_type_counterexample :
    (modernResourceWriteTask svcC2 "FooResource").1 = "FooResource.json" ∧
    (modernResourceWriteTask svcC2 "FooResource").2.terraformType = "" ∧
    ¬ ((modernResourceWriteTask svcC2 "FooResource").2.terraformType = "FooResource") := by
  refine ⟨rfl, rfl, ?_⟩
  decide

/-- Claim C2 as amended: for a modern resource, modern data source or
ephemeral resource whose identifier is unresolved, the task construction
never fails and the output file name falls back to the raw object name, but
the terraform_type recorded inside the emitted document is the empty string
(the constructors re-read the unresolved mapping, whose Go zero value is the
empty string). -/
theorem modern_fallback_write_tasks (svc : ServiceRegistration) (s : String)
    (hr : goLookup svc.resourceTerraformTypes s = none)
    (hd : goLookup svc.dataSourceTerraformTypes s = none)
    (he : goLookup svc.ephemeralTerraformTypes s = none) :
    ((modernResourceWriteTask svc s).1 = s ++ ".json" ∧
     (modernResourceWriteTask svc s).2.terraformType = "" ∧
     (modernResourceWriteTask svc s).2.structType = s) ∧
    ((modernDataSourceWriteTask svc s).1 = s ++ ".json" ∧
     (modernDataSourceWriteTask svc s).2.terraformType = "" ∧
     (modernDataSourceWriteTask svc s).2.structType = s) ∧
    ((ephemeralWriteTask svc s).1 = s ++ ".json" ∧
     (ephemeralWriteTask svc s).2.terraformType = "" ∧
     (ephemeralWriteTask svc s).2.structType = s) := by
  have hmr : "modern_sdk" ≠ "legacy_pluginsdk" := by decide
  simp [modernResourceWriteTask, modernDataSourceWriteTask, ephemeralWriteTask,
        NewTerraformResourceInfo, NewTerraformDataSourceInfo, NewTerraformEphemeralInfo,
        hr, hd, he, hmr]

/-- Witness for the amended C2 theorem at the concrete service svcC2 and
object name FooResource. -/
theorem modern_fallback_write_tasks_witness :
    goLookup svcC2.resourceTerraformTypes "FooResource" = none ∧
    (((modernResourceWriteTask svcC2 "FooResource").1 = "FooResource" ++ ".json" ∧
      (modernResourceWriteTask svcC2 "FooResource").2.terraformType = "" ∧
      (modernResourceWriteTask svcC2 "FooResource").2.structType = "FooResource") ∧
     ((modernDataSourceWriteTask svcC2 "FooResource").1 = "FooResource" ++ ".json" ∧
      (modernDataSourceWriteTask svcC2 "FooResource").2.terraformType = "" ∧
      (modernDataSourceWriteTask svcC2 "FooResource").2.structType = "FooResource") ∧
     ((ephemeralWriteTask svcC2 "FooResource").1 = "FooResource" ++ ".json" ∧
      (ephemeralWriteTask svcC2 "FooResource").2.terraformType = "" ∧
      (ephemeralWriteTask svcC2 "FooResource").2.structType = "FooResource")) :=
  ⟨rfl, modern_fallback_write_tasks svcC2 "FooResource" rfl rfl rfl⟩

/-- Claim C6: the table recognizer produces the same mapping for a method
body that returns a map literal directly and for a body that assigns the
literal to a local variable and returns that variable's bare identifier. -/
theorem direct_return_eq_variable_return (methodName x : String) (ty : Option Expr)
    (elts : List Expr) (recv : Option Expr) (results : List Expr) :
    extractMappingsFromMethod
      [{ name := methodName, recv := recv, results := results,
         body := [Stmt.ret [Expr.composite ty elts]] }] methodName =
    extractMappingsFromMethod
      [{ name := methodName, recv := recv, results := results,
         body := [Stmt.assign [Expr.ident x] [Expr.composite ty elts], Stmt.ret [Expr.ident x]] }] methodName := by
  simp [extractMappingsFromMethod, retMappings, varMappingsInBody, scanAssignLhs]

/-- Lookup after one map-literal element step: for a non-empty key `k`, the
element's recognized binding for `k` overrides the accumulated mapping. -/
theorem goLookup_mapLiteralStep (m : GoMap String) (e : Expr) (k : String) (hk : k ≠ "") :
    goLookup (mapLiteralStep m e) k =
      match recognizedBinding k e with
      | some v => some v
      | none => goLookup m k := by
  cases e with
  | keyValue key value =>
    simp only [mapLiteralStep, recognizedBinding]
    by_cases hv : mapValOf value = ""
    · simp [hv]
    · by_cases hkk : mapKeyOf key = k
      · simp [hkk, hv, hk, goLookup_goInsert]
      · by_cases hke : mapKeyOf key = ""
        · simp [hke, hkk, hv, Ne.symm hk]
        · simp [hke, hkk, hv, goLookup_goInsert]
  | ident n => simp [mapLiteralStep, recognizedBinding]
  | basicLit b tok => simp [mapLiteralStep, recognizedBinding]
  | call f args => simp [mapLiteralStep, recognizedBinding]
  | selector x sel => simp [mapLiteralStep, recognizedBinding]
  | composite ty elts => simp [mapLiteralStep, recognizedBinding]
  | unary b x => simp [mapLiteralStep, recognizedBinding]
  | star x => simp [mapLiteralStep, recognizedBinding]
  | otherExpr => simp [mapLiteralStep, recognizedBinding]

/-- Lookup after folding `mapLiteralStep` over an element list: the
last-occurring recognized binding wins, and in its absence the accumulator
decides. -/
theorem goLookup_foldl_mapLiteralStep (elts : List Expr) (m : GoMap String) (k : String) (hk : k ≠ "") :
    goLookup (elts.foldl mapLiteralStep m) k =
      match lastBinding k elts with
      | some v => some v
      | none => goLookup m k := by
  induction elts generalizing m with
  | nil => simp [lastBinding]
  | cons e rest ih =>
    simp only [List.foldl_cons, lastBinding]
    rw [ih (mapLiteralStep m e)]
    cases hrest : lastBinding k rest with
    | some v => simp
    | none => simp [goLookup_mapLiteralStep m e k hk]

/-- Claim C5: in a map literal recognized by the table recognizer, a
duplicated quoted-string key is bound to the implementation identifier of
the last-occurring recognized pair in literal order (last-write-wins); the
statement characterizes the lookup for every key occurring in at least one
recognized pair, which covers the duplicated case. -/
theorem extractFromMapLiteral_last_write_wins (elts : List Expr) (k : String) (hk : k ≠ "") :
    goLookup (extractFromMapLiteral elts) k = lastBinding k elts := by
  unfold extractFromMapLiteral
  rw [goLookup_foldl_mapLiteralStep elts [] k hk]
  cases hlast : lastBinding k elts <;> simp [goLookup]

/-- Witness for C5 at a concrete literal binding x_a twice: the mapping
keeps the second value makeA2. -/
theorem extractFromMapLiteral_last_write_wins_witness :
    ("x_a" : String) ≠ "" ∧
    goLookup (extractFromMapLiteral c5elts) "x_a" = lastBinding "x_a" c5elts ∧
    goLookup (extractFromMapLiteral c5elts) "x_a" = some "makeA2" :=
  ⟨by decide, extractFromMapLiteral_last_write_wins c5elts "x_a" (by decide), by decide⟩

/-- Disjointness of the Create and Read alias tables. -/
theorem create_not_read : ∀ k ∈ createAliases, k ∉ readAliases := by decide

/-- Disjointness of the Create and Update alias tables. -/
theorem create_not_update : ∀ k ∈ createAliases, k ∉ updateAliases := by decide

/-- Disjointness of the Create and Delete alias tables. -/
theorem create_not_delete : ∀ k ∈ createAliases, k ∉ deleteAliases := by decide

/-- Disjointness of the Read and Update alias tables. -/
theorem read_not_update : ∀ k ∈ readAliases, k ∉ updateAliases := by decide

/-- Disjointness of the Read and Delete alias tables. -/
theorem read_not_delete : ∀ k ∈ readAliases, k ∉ deleteAliases := by decide

/-- Disjointness of the Update and Delete alias tables. -/
theorem update_not_delete : ∀ k ∈ updateAliases, k ∉ deleteAliases := by decide

/-- Field-wise effect of one configuration-literal element on the CRUD
record: each operation field takes the element's recognized callable name
for that operation, or keeps its previous value. -/
theorem resourceLiteralStep_fields (m : LegacyResourceCRUDFunctions) (e : Expr) :
    (resourceLiteralStep m e).createMethod = (crudBindingFor createAliases e).getD m.createMethod ∧
    (resourceLiteralStep m e).readMethod = (crudBindingFor readAliases e).getD m.readMethod ∧
    (resourceLiteralStep m e).updateMethod = (crudBindingFor updateAliases e).getD m.updateMethod ∧
    (resourceLiteralStep m e).deleteMethod = (crudBindingFor deleteAliases e).getD m.deleteMethod := by
  cases e with
  | keyValue key value =>
    simp only [resourceLiteralStep, crudBindingFor]
    by_cases hf : extractFunctionReference value = ""
    · simp [hf]
    · by_cases h1 : crudKeyOf key ∈ createAliases
      · simp [hf, h1, create_not_read _ h1, create_not_update _ h1, create_not_delete _ h1]
      · by_cases h2 : crudKeyOf key ∈ readAliases
        · simp [hf, h1, h2, read_not_update _ h2, read_not_delete _ h2]
        · by_cases h3 : crudKeyOf key ∈ updateAliases
          · simp [hf, h1, h2, h3, update_not_delete _ h3]
          · by_cases h4 : crudKeyOf key ∈ deleteAliases
            · simp [hf, h1, h2, h3, h4]
            · simp [hf, h1, h2, h3, h4]
  | ident n => simp [resourceLiteralStep, crudBindingFor]
  | basicLit b tok => simp [resourceLiteralStep, crudBindingFor]
  | call f args => simp [resourceLiteralStep, crudBindingFor]
  | selector x sel => simp [resourceLiteralStep, crudBindingFor]
  | composite ty elts => simp [resourceLiteralStep, crudBindingFor]
  | unary b x => simp [resourceLiteralStep, crudBindingFor]
  | star x => simp [resourceLiteralStep, crudBindingFor]
  | otherExpr => simp [resourceLiteralStep, crudBindingFor]

/-- Fold characterization of `extractFromResourceLiteral`: each operation
field ends as the last-occurring recognized callable name for that
operation, or the starting value when no pair matches. -/
theorem extractFromResourceLiteral_fold (elts : List Expr) (m : LegacyResourceCRUDFunctions) :
    extractFromResourceLiteral elts m =
      { createMethod := (lastCrudBinding createAliases elts).getD m.createMethod
        readMethod := (lastCrudBinding readAliases elts).getD m.readMethod
        updateMethod := (lastCrudBinding updateAliases elts).getD m.updateMethod
        deleteMethod := (lastCrudBinding deleteAliases elts).getD m.deleteMethod } := by
  induction elts generalizing m with
  | nil => simp [extractFromResourceLiteral, lastCrudBinding]
  | cons e rest ih =>
    have hstep := resourceLiteralStep_fields m e
    obtain ⟨hc, hr, hu, hd⟩ := hstep
    have hcons : extractFromResourceLiteral (e :: rest) m = extractFromResourceLiteral rest (resourceLiteralStep m e) := rfl
    rw [hcons, ih, hc, hr, hu, hd]
    simp only [lastCrudBinding, LegacyResourceCRUDFunctions.mk.injEq]
    refine ⟨?_, ?_, ?_, ?_⟩
    · cases h : lastCrudBinding createAliases rest <;> simp [h]
    · cases h : lastCrudBinding readAliases rest <;> simp [h]
    · cases h : lastCrudBinding updateAliases rest <;> simp [h]
    · cases h : lastCrudBinding deleteAliases rest <;> simp [h]

/-- Claim C7: the CRUD resolver records a value's callable name under an
operation exactly for keys among that operation's four case-sensitive
spellings (last occurrence winning), a qualified value keeps only its
trailing name, unrecognized keys are ignored, and operations never assigned
remain empty strings, with no error case. -/
theorem extractFromResourceLiteral_characterization (elts : List Expr) :
    extractFromResourceLiteral elts {} =
      { createMethod := (lastCrudBinding createAliases elts).getD ""
        readMethod := (lastCrudBinding readAliases elts).getD ""
        updateMethod := (lastCrudBinding updateAliases elts).getD ""
        deleteMethod := (lastCrudBinding deleteAliases elts).getD "" } ∧
    (∀ x n, extractFunctionReference (Expr.selector x n) = n) :=
  ⟨extractFromResourceLiteral_fold elts {}, fun _ _ => rfl⟩

/-- Counterexample for claim C3: the package-level CRUD resolver extracts
CRUD methods from the same-named function `resourceFoo` even though its
declared return type is *schema.Resource rather than *pluginsdk.Resource;
the two-part return-type check lives only in `findResourceFunction`, which
here finds nothing. -/
theorem crud_resolver_ignores_return_type_counterexample :
    returnsPluginsdkResource c3fn.results = false ∧
    findResourceFunction [c3fn] = none ∧
    (extractCRUDFromPackage "resourceFoo" (some c3pkg)).map (fun m => m.readMethod) = some "readFn" := by
  refine ⟨by decide, rfl, rfl⟩

/-- Claim C3 as amended: the package-level CRUD resolver
(`extractCRUDFromPackage`) selects the first declared function whose name
equals the registration-table value and which carries a declaration, and
extracts CRUD methods from its body regardless of the declared return type
(the CRUD extraction never reads the result list); the
pointer-to-`pluginsdk.Resource` return-type requirement exists only in the
separate `findResourceFunction` helper, which ignores the name. -/
theorem extractCRUDFromPackage_selects_by_name (rm pp : String) (files : List (Option GoFile))
    (pre post : List FuncInfo) (d : FuncDecl)
    (h : ∀ f ∈ pre, f.name ≠ rm ∨ f.decl = none) :
    extractCRUDFromPackage rm (some { packagePath := pp, files := files, functions := pre ++ { name := rm, decl := some d } :: post }) =
      some (extractCRUDFromFunction d) ∧
    (∀ res2 : List Expr,
      extractCRUDFromFunction { name := d.name, recv := d.recv, results := res2, body := d.body } =
        extractCRUDFromFunction d) := by
  constructor
  · simp only [extractCRUDFromPackage]
    induction pre with
    | nil => simp [findRegistrationFunc]
    | cons f fs ih =>
      have hf := h f (List.mem_cons_self f fs)
      have hrest : ∀ g ∈ fs, g.name ≠ rm ∨ g.decl = none := fun g hg => h g (List.mem_cons_of_mem f hg)
      rcases hf with hname | hdecl
      · cases hfd : f.decl with
        | none => simpa [findRegistrationFunc, hfd] using ih hrest
        | some d' => simpa [findRegistrationFunc, hfd, hname] using ih hrest
      · simpa [findRegistrationFunc, hdecl] using ih hrest
  · intro res2
    rfl

/-- Witness for the amended C3 theorem at the concrete package c3pkg, whose
only declared function is named resourceFoo with a *schema.Resource return
type. -/
theorem extractCRUDFromPackage_selects_by_name_witness :
    (∀ f ∈ ([] : List FuncInfo), f.name ≠ "resourceFoo" ∨ f.decl = none) ∧
    (extractCRUDFromPackage "resourceFoo"
        (some { packagePath := "internal/services/foo", files := [some [c3fn]],
                functions := [] ++ { name := "resourceFoo", decl := some c3fn } :: [] }) =
      some (extractCRUDFromFunction c3fn) ∧
     (∀ res2 : List Expr,
       extractCRUDFromFunction { name := c3fn.name, recv := c3fn.recv, results := res2, body := c3fn.body } =
         extractCRUDFromFunction c3fn)) :=
  ⟨by simp, extractCRUDFromPackage_selects_by_name "resourceFoo" "internal/services/foo"
    [some [c3fn]] [] [] c3fn (by simp)⟩

/-- View of the per-file `ResourceType` search through the resolved string:
the search result matters only through `extractStringReturnValue`. -/
theorem resourceTypeFromFile_eq_map (structName : String) (f : GoFile) :
    resourceTypeFromFile structName f =
      ((resourceTypeMethodInFile structName f).map extractStringReturnValue).getD "" := by
  cases h : resourceTypeMethodInFile structName f <;> simp [resourceTypeFromFile, h]

/-- Receiver indirection does not change the resolved string of the per-file
`ResourceType` search: a method declared with receiver `S` and the same
method declared with receiver `*S` resolve identically in any declaration
context. -/
theorem resourceTypeMethodInFile_recv_indirection (structName S n : String)
    (res : List Expr) (body : List Stmt) (dp ds : List FuncDecl) :
    (resourceTypeMethodInFile structName
        (dp ++ { name := n, recv := some (Expr.ident S), results := res, body := body } :: ds)).map extractStringReturnValue =
    (resourceTypeMethodInFile structName
        (dp ++ { name := n, recv := some (Expr.star (Expr.ident S)), results := res, body := body } :: ds)).map extractStringReturnValue := by
  induction dp with
  | nil =>
    by_cases hn : n = "ResourceType"
    · by_cases hS : S = structName
      · simp [resourceTypeMethodInFile, hn, hS, receiverTypeName, extractStringReturnValue]
      · simp [resourceTypeMethodInFile, hn, hS, receiverTypeName]
    · simp [resourceTypeMethodInFile, hn]
  | cons dcl dp ih =>
    by_cases hn : dcl.name = "ResourceType"
    · cases hrecv : dcl.recv with
      | none => simpa [resourceTypeMethodInFile, hn, hrecv] using ih
      | some recvTy =>
        by_cases hmatch : receiverTypeName recvTy = structName
        · simp [resourceTypeMethodInFile, hn, hrecv, hmatch]
        · simpa [resourceTypeMethodInFile, hn, hrecv, hmatch] using ih
    · simpa [resourceTypeMethodInFile, hn] using ih

/-- Claim C8: the Type Resolver yields the same resolved external identifier
whether the matching `ResourceType` method is declared with a by-value
receiver (`S`) or a by-reference receiver (`*S`), in any package context. -/
theorem resolver_value_pointer_receiver_agree (fp fs : List (Option GoFile))
    (dp ds : List FuncDecl) (n S : String) (res : List Expr) (body : List Stmt)
    (structName : String) :
    extractTerraformTypeFromResourceTypeMethod
        (fp ++ some (dp ++ { name := n, recv := some (Expr.ident S), results := res, body := body } :: ds) :: fs)
        structName =
    extractTerraformTypeFromResourceTypeMethod
        (fp ++ some (dp ++ { name := n, recv := some (Expr.star (Expr.ident S)), results := res, body := body } :: ds) :: fs)
        structName := by
  have hfile : resourceTypeFromFile structName
      (dp ++ { name := n, recv := some (Expr.ident S), results := res, body := body } :: ds) =
    resourceTypeFromFile structName
      (dp ++ { name := n, recv := some (Expr.star (Expr.ident S)), results := res, body := body } :: ds) := by
    rw [resourceTypeFromFile_eq_map, resourceTypeFromFile_eq_map,
        resourceTypeMethodInFile_recv_indirection]
  induction fp with
  | nil =>
    simp only [List.nil_append, extractTerraformTypeFromResourceTypeMethod]
    rw [hfile]
  | cons f? fp ih =>
    cases f? with
    | none => simpa [extractTerraformTypeFromResourceTypeMethod] using ih
    | some g =>
      by_cases hres : resourceTypeFromFile structName g = "" <;>
        simp [extractTerraformTypeFromResourceTypeMethod, hres, ih]

/-- Package-level no-findings hypothesis for C9: every parsed file of the
package yields empty results from all five recognizers. -/
def allRecognizersEmpty (pkg : PackageInfo) : Prop :=
  ∀ file? ∈ pkg.files, ∀ f, file? = some f →
    extractSupportedResourcesMappings f = [] ∧
    extractSupportedDataSourcesMappings f = [] ∧
    extractResourcesStructTypes f = [] ∧
    extractDataSourcesStructTypes f = [] ∧
    extractEphemeralResourcesFunctions f = []

/-- Folding the per-file merge over files with no findings leaves the
registration unchanged. -/
theorem mergeFileFindings_foldl_empty (files : List (Option GoFile)) (reg : ServiceRegistration)
    (h : ∀ file? ∈ files, ∀ f, file? = some f →
      extractSupportedResourcesMappings f = [] ∧
      extractSupportedDataSourcesMappings f = [] ∧
      extractResourcesStructTypes f = [] ∧
      extractDataSourcesStructTypes f = [] ∧
      extractEphemeralResourcesFunctions f = []) :
    files.foldl mergeFileFindings reg = reg := by
  induction files generalizing reg with
  | nil => rfl
  | cons file? rest ih =>
    have hrest : ∀ g ∈ rest, ∀ f, g = some f →
        extractSupportedResourcesMappings f = [] ∧
        extractSupportedDataSourcesMappings f = [] ∧
        extractResourcesStructTypes f = [] ∧
        extractDataSourcesStructTypes f = [] ∧
        extractEphemeralResourcesFunctions f = [] :=
      fun g hg => h g (List.mem_cons_of_mem file? hg)
    cases file? with
    | none => simpa [mergeFileFindings] using ih reg hrest
    | some f =>
      obtain ⟨h1, h2, h3, h4, h5⟩ := h (some f) (List.mem_cons_self _ _) f rfl
      have hstep : mergeFileFindings reg (some f) = reg := by
        simp [mergeFileFindings, h1, h2, h3, h4, h5, mergeMap]
      simpa [hstep] using ih reg hrest

/-- A package with no findings produces no service registration from the
worker body. -/
theorem scanWorker_none_of_empty (name : String) (pkg : PackageInfo)
    (h : allRecognizersEmpty pkg) :
    scanWorker { name := name, pkg := some pkg } = none := by
  by_cases hfe : pkg.files.isEmpty
  · simp [scanWorker, hfe]
  · have hfold := mergeFileFindings_foldl_empty pkg.files (newServiceRegistration pkg name) h
    have hreg : hasAnyRegistration (scanService pkg name) = false := by
      unfold scanService
      rw [hfold]
      simp [hasAnyRegistration, newServiceRegistration]
    simp [scanWorker, hfe, hreg]

/-- Claim C9: a scanned package in which all five recognizers return empty
results across every file contributes no ServiceRegistration to the final
index: the index built with that package equals the index built without it,
so it appears in no service list and adds nothing to any statistic. -/
theorem empty_package_excluded (version name : String) (pkg : PackageInfo)
    (pre post : List ScanEntry) (h : allRecognizersEmpty pkg) :
    ScanTerraformProviderServices (pre ++ { name := name, pkg := some pkg } :: post) version =
      ScanTerraformProviderServices (pre ++ post) version := by
  have hw := scanWorker_none_of_empty name pkg h
  simp [ScanTerraformProviderServices, List.filterMap_append, List.filterMap_cons, hw]

/-- Witness for C9 at a concrete one-file package whose single helper
function matches none of the five recognizers. -/
theorem empty_package_excluded_witness :
    allRecognizersEmpty c9pkg ∧
    ScanTerraformProviderServices ([] ++ { name := "empty", pkg := some c9pkg } :: []) "v1" =
      ScanTerraformProviderServices ([] ++ []) "v1" := by
  have hempty : allRecognizersEmpty c9pkg := by
    intro file? hfile f hf
    simp only [c9pkg, List.mem_singleton] at hfile
    subst hfile
    cases hf
    refine ⟨by decide, by decide, by decide, by decide, by decide⟩
  exact ⟨hempty, empty_package_excluded "v1" "empty" c9pkg [] [] hempty⟩

/-- Fold characterization of the collection loop's TotalDataSources counter:
every collected registration adds its legacy data-source table size plus its
modern data-source list length. -/
theorem collectStep_foldl_totalDataSources (regs : List ServiceRegistration) (s : ProviderStatistics) :
    (regs.foldl collectStep s).totalDataSources =
      s.totalDataSources + (regs.map (fun r => r.supportedDataSources.length + r.dataSources.length)).sum := by
  induction regs generalizing s with
  | nil => simp
  | cons r rest ih =>
    simp only [List.foldl_cons, List.map_cons, List.sum_cons]
    rw [ih]
    simp only [collectStep]
    omega

/-- Claim C10: TotalDataSources equals the sum over all included services of
the legacy data-source table size plus the modern data-source list length
(list length counts duplicates individually); ephemeral resources never
contribute, as no other term occurs in the sum. -/
theorem scan_totalDataSources_is_sum (entries : List ScanEntry) (version : String) :
    (ScanTerraformProviderServices entries version).statistics.totalDataSources =
      ((ScanTerraformProviderServices entries version).services.map
        (fun svc => svc.supportedDataSources.length + svc.dataSources.length)).sum := by
  have h := collectStep_foldl_totalDataSources (entries.filterMap scanWorker) {}
  simpa [ScanTerraformProviderServices] using h

/-- Effect of one model step of the emission pool: file writes and error
sends only append, and a worker that has returned never becomes active
again. -/
theorem emStep_extends (nw : Nat) (s : EmState) (w : Nat) :
    (∃ t, (emStep nw s w).written = s.written ++ t) ∧
    (∃ t, (emStep nw s w).errLog = s.errLog ++ t) ∧
    (∀ v ∈ s.stopped, v ∈ (emStep nw s w).stopped) := by
  unfold emStep
  by_cases h : w < nw ∧ w ∉ s.stopped
  · rw [if_pos h]
    cases hq : s.queue with
    | nil => exact ⟨⟨[], by simp⟩, ⟨[], by simp⟩, fun v hv => hv⟩
    | cons task rest =>
      obtain ⟨id, t⟩ := task
      cases t with
      | ok f => exact ⟨⟨[f], rfl⟩, ⟨[], by simp⟩, fun v hv => hv⟩
      | fail e => exact ⟨⟨[], by simp⟩, ⟨[e], rfl⟩, fun v hv => List.mem_cons_of_mem _ hv⟩
  · rw [if_neg h]
    exact ⟨⟨[], by simp⟩, ⟨[], by simp⟩, fun v hv => hv⟩

/-- Effect of any model schedule: file writes and error sends only append,
and returned workers stay returned. -/
theorem emFold_extends (nw : Nat) (sched : List Nat) (s : EmState) :
    (∃ t, (sched.foldl (emStep nw) s).written = s.written ++ t) ∧
    (∃ t, (sched.foldl (emStep nw) s).errLog = s.errLog ++ t) ∧
    (∀ v ∈ s.stopped, v ∈ (sched.foldl (emStep nw) s).stopped) := by
  induction sched generalizing s with
  | nil => exact ⟨⟨[], by simp⟩, ⟨[], by simp⟩, fun v hv => hv⟩
  | cons w ws ih =>
    obtain ⟨⟨t1, h1⟩, ⟨t2, h2⟩, h3⟩ := emStep_extends nw s w
    obtain ⟨⟨u1, g1⟩, ⟨u2, g2⟩, g3⟩ := ih (emStep nw s w)
    refine ⟨⟨t1 ++ u1, ?_⟩, ⟨t2 ++ u2, ?_⟩, ?_⟩
    · simp only [List.foldl_cons]
      rw [g1, h1, List.append_assoc]
    · simp only [List.foldl_cons]
      rw [g2, h2, List.append_assoc]
    · intro v hv
      simp only [List.foldl_cons]
      exact g3 v (h3 v hv)

/-- Head of an extended list is the head of its non-empty base. -/
theorem head?_append_of_ne_nil {α : Type} (l t : List α) (h : l ≠ []) : (l ++ t).head? = l.head? := by
  cases l with
  | nil => exact absurd rfl h
  | cons a l => rfl

/-- Counterexample for claim C4: a legal interleaving of the emission pool
with two workers in which, after the first (and only) error has already been
sent with only task 0 started, worker 1 subsequently starts tasks 1 and 2;
"remaining not-yet-started tasks are not started after that first error"
fails, while the run still returns the first error. -/
theorem emission_tasks_start_after_error_counterexample :
    (emRun 2 c4tasks [0]).errLog = ["e0"] ∧
    (emRun 2 c4tasks [0]).started = [0] ∧
    (emRun 2 c4tasks [0]).queue = [(1, EmTask.ok "f1"), (2, EmTask.ok "f2")] ∧
    (emRun 2 c4tasks [0, 1, 1]).started = [0, 1, 2] ∧
    processCallbacksParallelResult (emRun 2 c4tasks [0, 1, 1]) = some "e0" ∧
    (emRun 2 c4tasks [0, 1, 1]).written = ["f1", "f2"] := by
  decide

/-- Claim C4 as amended: when some write task has failed, the emission
pipeline returns the first error that occurred regardless of how the
schedule continues, files already written remain on disk (the written list
only grows, with no rollback), and a worker that hit an error starts no
further task; other workers, however, may continue to start the remaining
queued tasks, as the counterexample shows. -/
theorem emission_first_error_and_no_rollback (nw : Nat) (tasks : List (Nat × EmTask)) (s1 s2 : List Nat)
    (h : (emRun nw tasks s1).errLog ≠ []) :
    processCallbacksParallelResult (emRun nw tasks (s1 ++ s2)) = (emRun nw tasks s1).errLog.head? ∧
    (∃ t, (emRun nw tasks (s1 ++ s2)).written = (emRun nw tasks s1).written ++ t) ∧
    (∀ w, w ∈ (emRun nw tasks s1).stopped → w ∈ (emRun nw tasks (s1 ++ s2)).stopped) := by
  have hrun : emRun nw tasks (s1 ++ s2) = s2.foldl (emStep nw) (emRun nw tasks s1) := by
    unfold emRun
    rw [List.foldl_append]
  obtain ⟨⟨t1, h1⟩, ⟨t2, h2⟩, h3⟩ := emFold_extends nw s2 (emRun nw tasks s1)
  refine ⟨?_, ⟨t1, by rw [hrun]; exact h1⟩, fun w hw => by rw [hrun]; exact h3 w hw⟩
  unfold processCallbacksParallelResult
  rw [hrun, h2]
  exact head?_append_of_ne_nil _ _ h

/-- Witness for the amended C4 theorem at the concrete failing run of
c4tasks. -/
theorem emission_first_error_and_no_rollback_witness :
    (emRun 2 c4tasks [0]).errLog ≠ [] ∧
    (processCallbacksParallelResult (emRun 2 c4tasks ([0] ++ [1, 1])) = (emRun 2 c4tasks [0]).errLog.head? ∧
     (∃ t, (emRun 2 c4tasks ([0] ++ [1, 1])).written = (emRun 2 c4tasks [0]).written ++ t) ∧
     (∀ w, w ∈ (emRun 2 c4tasks [0]).stopped → w ∈ (emRun 2 c4tasks ([0] ++ [1, 1])).stopped)) :=
  ⟨by decide, emission_first_error_and_no_rollback 2 c4tasks [0] [1, 1] (by decide)⟩

end AzurermIndex
